import Mathlib

/-!
Verification of the Poisson scan-statistic kernel in `src/PBPOIabstract.h`
(`PBPOIabstract::calculate`, the three storage strategies `store_all`,
`store_max`, `store_sim`, the constructor's aggregate tables, and the
retrieval function `get_scan`).

IEEE-754 double values are modelled by the type `FP`: a finite real,
positive infinity (`+inf`), negative infinity (`R_NegInf` in the source),
or NaN.  The arithmetic operations used by the kernel (`/`, `std::log`,
`*`, `+`, `>`) are given their IEEE semantics on these values; finite
arithmetic is modelled exactly over `ℝ` (rounding is not modelled).
Machine counts (`arma::uword`) are modelled by `ℕ`, with the wrapping
subtraction `m_total_count - C` (int minus unsigned, performed modulo
2^64) made explicit as `usub`.
-/

namespace PBPOI

/-- An IEEE double: finite real, +inf, -inf, or NaN. -/
inductive FP : Type where
  | fin : ℝ → FP
  | pinf : FP
  | ninf : FP
  | nan : FP

/-- Whether a double holds an ordinary (finite) real value. -/
def FP.isFinite : FP → Bool
  | .fin _ => true
  | _ => false

/-- IEEE division of two finite doubles (the kernel only divides finite
values): `x / 0` is `NaN` when `x = 0`, else a signed infinity. -/
noncomputable def fdiv (x y : ℝ) : FP :=
  if y = 0 then (if x = 0 then FP.nan else if 0 < x then FP.pinf else FP.ninf)
  else FP.fin (x / y)

/-- IEEE `std::log` on a double: `log 0 = -inf`, `log` of a negative is
`NaN`, `log (+inf) = +inf`, `log NaN = NaN`. -/
noncomputable def flog : FP → FP
  | .fin x => if x = 0 then FP.ninf else if x < 0 then FP.nan else FP.fin (Real.log x)
  | .pinf => FP.pinf
  | .ninf => FP.nan
  | .nan => FP.nan

/-- IEEE multiplication of a finite double `c` by a double:
`0 * (±inf) = NaN`. -/
noncomputable def fmul (c : ℝ) : FP → FP
  | .fin x => FP.fin (c * x)
  | .pinf => if c = 0 then FP.nan else if 0 < c then FP.pinf else FP.ninf
  | .ninf => if c = 0 then FP.nan else if 0 < c then FP.ninf else FP.pinf
  | .nan => FP.nan

/-- IEEE addition of two doubles: `(+inf) + (-inf) = NaN`, NaN propagates. -/
noncomputable def fadd : FP → FP → FP
  | .nan, _ => FP.nan
  | _, .nan => FP.nan
  | .fin x, .fin y => FP.fin (x + y)
  | .fin _, .pinf => FP.pinf
  | .fin _, .ninf => FP.ninf
  | .pinf, .fin _ => FP.pinf
  | .ninf, .fin _ => FP.ninf
  | .pinf, .pinf => FP.pinf
  | .ninf, .ninf => FP.ninf
  | .pinf, .ninf => FP.nan
  | .ninf, .pinf => FP.nan

/-- IEEE `>` on doubles: any comparison involving NaN is false. -/
def fgt : FP → FP → Prop
  | .nan, _ => False
  | _, .nan => False
  | .ninf, _ => False
  | .pinf, .pinf => False
  | .pinf, _ => True
  | .fin _, .pinf => False
  | .fin x, .fin y => y < x
  | .fin _, .ninf => True

/-- Unsigned `arma::uword` subtraction `a - b` (`int` is converted to the unsigned
64-bit `uword`, so the subtraction wraps modulo `2 ^ 64`), as performed in
`m_total_count - C` on lines 100 and 104 of the source. -/
def usub (a b : ℕ) : ℕ := (((a : ℤ) - (b : ℤ)) % (2 ^ 64 : ℤ)).toNat

/-- Line 98 of the source: `risk_in = C / B` (uword `C` converted to
double, IEEE division). -/
noncomputable def calc_risk_in (C : ℕ) (B : ℝ) : FP := fdiv (C : ℝ) B

/-- Lines 99–101 of the source:
`risk_out = m_total_count > B ? (m_total_count - C) / (m_total_count - B) : 1.0`.
The numerator is uword arithmetic (`usub`); the test and the denominator
are double arithmetic. -/
noncomputable def calc_risk_out (total C : ℕ) (B : ℝ) : FP :=
  if B < (total : ℝ) then fdiv ((usub total C : ℕ) : ℝ) ((total : ℝ) - B)
  else FP.fin 1

/-- Lines 103–105 of the source:
`score = C > B ? C * log(risk_in) + (m_total_count - C) * log(risk_out) : R_NegInf`. -/
noncomputable def calc_score (total C : ℕ) (B : ℝ) : FP :=
  if B < (C : ℝ) then
    fadd (fmul (C : ℝ) (flog (calc_risk_in C B)))
      (fmul ((usub total C : ℕ) : ℝ) (flog (calc_risk_out total C B)))
  else FP.ninf

/-- Unwrapping lemma for `usub`: when `b ≤ a < 2 ^ 64` the wrapping
subtraction agrees with truncated natural subtraction. -/
lemma usub_eq_sub (a b : ℕ) (hba : b ≤ a) (ha : a < 2 ^ 64) : usub a b = a - b := by
  unfold usub
  have h0 : (0 : ℤ) ≤ (a : ℤ) - (b : ℤ) := by
    omega
  have h1 : (a : ℤ) - (b : ℤ) < (2 ^ 64 : ℤ) := by
    omega
  rw [Int.emod_eq_of_lt h0 h1]
  omega

lemma fdiv_of_ne (x y : ℝ) (hy : y ≠ 0) : fdiv x y = FP.fin (x / y) := by
  unfold fdiv
  rw [if_neg hy]

lemma flog_fin_of_pos (x : ℝ) (hx : 0 < x) : flog (FP.fin x) = FP.fin (Real.log x) := by
  simp only [flog]
  rw [if_neg (ne_of_gt hx), if_neg (not_lt.mpr (le_of_lt hx))]

lemma fmul_fin (c x : ℝ) : fmul c (FP.fin x) = FP.fin (c * x) := rfl

lemma fadd_fin (x y : ℝ) : fadd (FP.fin x) (FP.fin y) = FP.fin (x + y) := rfl

lemma fgt_ninf_left (y : FP) : ¬ fgt FP.ninf y := by
  cases y <;> simp [fgt]

open Classical

/-- The observed-data result vectors: `m_scores`, `m_zone_numbers` and
`m_durations` live in the `USTscan` base class, `m_relrisk_in` and
`m_relrisk_out` on lines 25–26 of the source.  The `arma` vectors are
modelled as total maps from slot index to entry. -/
structure ResultsState : Type where
  m_scores : ℕ → FP
  m_relrisk_in : ℕ → FP
  m_relrisk_out : ℕ → FP
  m_zone_numbers : ℕ → ℤ
  m_durations : ℕ → ℤ

/-- The simulation result vectors (`sim_scores`, `sim_zone_numbers`,
`sim_durations` in the `USTscan` base, `sim_relrisk_in`/`sim_relrisk_out`
on lines 29–30 of the source), indexed by simulation round. -/
structure SimState : Type where
  sim_scores : ℕ → FP
  sim_relrisk_in : ℕ → FP
  sim_relrisk_out : ℕ → FP
  sim_zone_numbers : ℕ → ℤ
  sim_durations : ℕ → ℤ

/-- Lines 117–124 of the source: `store_all` writes all five fields at the
candidate's sequential `storage_index`. -/
def store_all (s : ResultsState) (storage_index : ℕ) (score q_in q_out : FP)
    (zone_nr duration : ℤ) : ResultsState :=
  { m_scores := Function.update s.m_scores storage_index score
    m_relrisk_in := Function.update s.m_relrisk_in storage_index q_in
    m_relrisk_out := Function.update s.m_relrisk_out storage_index q_out
    m_zone_numbers := Function.update s.m_zone_numbers storage_index zone_nr
    m_durations := Function.update s.m_durations storage_index duration }

/-- Lines 126–135 of the source: `store_max` compares the new score
against slot 0 with IEEE `>` and overwrites all five fields of slot 0 only
on strict improvement; `storage_index` is ignored. -/
noncomputable def store_max (s : ResultsState) (storage_index : ℕ)
    (score q_in q_out : FP) (zone_nr duration : ℤ) : ResultsState :=
  if fgt score (s.m_scores 0) then
    { m_scores := Function.update s.m_scores 0 score
      m_relrisk_in := Function.update s.m_relrisk_in 0 q_in
      m_relrisk_out := Function.update s.m_relrisk_out 0 q_out
      m_zone_numbers := Function.update s.m_zone_numbers 0 zone_nr
      m_durations := Function.update s.m_durations 0 duration }
  else s

/-- Lines 137–146 of the source: `store_sim` applies the `store_max`
comparison to the slot of the current simulation round `m_mcsim_index`
(a member of the `USTscan` base, passed here explicitly); `storage_index`
is ignored. -/
noncomputable def store_sim (m_mcsim_index : ℕ) (s : SimState) (storage_index : ℕ)
    (score q_in q_out : FP) (zone_nr duration : ℤ) : SimState :=
  if fgt score (s.sim_scores m_mcsim_index) then
    { sim_scores := Function.update s.sim_scores m_mcsim_index score
      sim_relrisk_in := Function.update s.sim_relrisk_in m_mcsim_index q_in
      sim_relrisk_out := Function.update s.sim_relrisk_out m_mcsim_index q_out
      sim_zone_numbers := Function.update s.sim_zone_numbers m_mcsim_index zone_nr
      sim_durations := Function.update s.sim_durations m_mcsim_index duration }
  else s

/-- Lines 70–71 of the source: the constructor selects `store_all` when
`store_everything` and `store_max` otherwise. -/
noncomputable def constructor_store (store_everything : Bool) :
    ResultsState → ℕ → FP → FP → FP → ℤ → ℤ → ResultsState :=
  if store_everything then store_all else store_max

/-- One candidate's store-call arguments, as passed by `calculate` to the
selected storage strategy (lines 107–108 of the source). -/
structure Cand : Type where
  idx : ℕ
  score : FP
  q_in : FP
  q_out : FP
  zone_nr : ℤ
  duration : ℤ

/-- Processing a sequence of candidates through `store_max`. -/
noncomputable def run_store_max (s : ResultsState) (cs : List Cand) : ResultsState :=
  cs.foldl (fun t c => store_max t c.idx c.score c.q_in c.q_out c.zone_nr c.duration) s

/-- Processing a sequence of candidates through `store_all`. -/
def run_store_all (s : ResultsState) (cs : List Cand) : ResultsState :=
  cs.foldl (fun t c => store_all t c.idx c.score c.q_in c.q_out c.zone_nr c.duration) s

/-- Processing a sequence of candidates of one simulation round `r`
through `store_sim`. -/
noncomputable def run_store_sim (r : ℕ) (s : SimState) (cs : List Cand) : SimState :=
  cs.foldl (fun t c => store_sim r t c.idx c.score c.q_in c.q_out c.zone_nr c.duration) s

/-- The observed-data output table of `get_scan` (lines 154–161 of the
source): five named columns read verbatim from the stored vectors. -/
structure ScanFrame : Type where
  zone : ℕ → ℤ
  duration : ℕ → ℤ
  score : ℕ → FP
  relrisk_in : ℕ → FP
  relrisk_out : ℕ → FP

/-- Lines 154–161 of the source: `get_scan` exports the five stored
vectors unchanged. -/
def get_scan (s : ResultsState) : ScanFrame :=
  { zone := s.m_zone_numbers
    duration := s.m_durations
    score := s.m_scores
    relrisk_in := s.m_relrisk_in
    relrisk_out := s.m_relrisk_out }

/-- Lines 163–170 of the source: `get_mcsim` exports the five simulation
vectors unchanged. -/
def get_mcsim (s : SimState) : ScanFrame :=
  { zone := s.sim_zone_numbers
    duration := s.sim_durations
    score := s.sim_scores
    relrisk_in := s.sim_relrisk_in
    relrisk_out := s.sim_relrisk_out }

/-- Lines 84–109 of the source: `calculate` aggregates the in-zone count
`C` and baseline `B` from the last cumulative row (`current_rows.tail(1)`)
over the zone's columns, computes the two risks and the score, and hands
the store function `(storage_index, score, risk_in, risk_out, zone_nr + 1,
duration + 1)`.  The cumulative matrices have time as the row index and
location as the column index. -/
noncomputable def calculate {T L : ℕ} (m_counts : Fin T → Fin L → ℕ)
    (m_baselines : Fin T → Fin L → ℝ) (m_total_count : ℕ)
    (storage_index : ℕ) (zone_nr duration : ℤ)
    (current_zone : Finset (Fin L)) (current_rows : List (Fin T))
    (hrows : current_rows ≠ []) : Cand :=
  { idx := storage_index
    score := calc_score m_total_count
      (∑ l ∈ current_zone, m_counts (current_rows.getLast hrows) l)
      (∑ l ∈ current_zone, m_baselines (current_rows.getLast hrows) l)
    q_in := calc_risk_in
      (∑ l ∈ current_zone, m_counts (current_rows.getLast hrows) l)
      (∑ l ∈ current_zone, m_baselines (current_rows.getLast hrows) l)
    q_out := calc_risk_out m_total_count
      (∑ l ∈ current_zone, m_counts (current_rows.getLast hrows) l)
      (∑ l ∈ current_zone, m_baselines (current_rows.getLast hrows) l)
    zone_nr := zone_nr + 1
    duration := duration + 1 }

/-- Line 111–113 of the source: `draw_sample` is the constant 1. -/
def draw_sample (row col : ℕ) : ℤ := 1

/-- Line 66 of the source: `m_total_count = arma::accu(counts)`. -/
def accu {T L : ℕ} (X : Fin T → Fin L → ℕ) : ℕ := ∑ t, ∑ l, X t l

/-- Line 67–68 of the source: `arma::cumsum` of a matrix runs down each
column, i.e. cumulatively over the time rows for each location. -/
def cumsum_time {T L : ℕ} (X : Fin T → Fin L → ℕ) : Fin T → Fin L → ℕ :=
  fun t l => ∑ u ∈ Finset.Iic t, X u l

/-- Concrete observed-data state used by the storage-strategy witnesses:
slot scores start at negative infinity. -/
noncomputable def w_init : ResultsState :=
  { m_scores := fun _ => FP.ninf
    m_relrisk_in := fun _ => FP.nan
    m_relrisk_out := fun _ => FP.nan
    m_zone_numbers := fun _ => 0
    m_durations := fun _ => 0 }

/-- Concrete candidate with score 1, used by the witnesses. -/
noncomputable def w_low : Cand :=
  { idx := 0, score := FP.fin 1, q_in := FP.nan, q_out := FP.nan, zone_nr := 3, duration := 4 }

/-- Concrete candidate with score 2 (the earliest top scorer). -/
noncomputable def w_best : Cand :=
  { idx := 1, score := FP.fin 2, q_in := FP.fin 5, q_out := FP.fin 6, zone_nr := 7, duration := 8 }

/-- Concrete candidate tying `w_best`'s score but seen later. -/
noncomputable def w_tie : Cand :=
  { idx := 2, score := FP.fin 2, q_in := FP.nan, q_out := FP.nan, zone_nr := 9, duration := 10 }

/-- The simulation-state counterpart of `w_init`. -/
noncomputable def w_sim_init : SimState :=
  { sim_scores := fun _ => FP.ninf
    sim_relrisk_in := fun _ => FP.nan
    sim_relrisk_out := fun _ => FP.nan
    sim_zone_numbers := fun _ => 0
    sim_durations := fun _ => 0 }

lemma store_max_of_not_fgt (s : ResultsState) (i : ℕ) (sc qi qo : FP) (z d : ℤ)
    (h : ¬ fgt sc (s.m_scores 0)) : store_max s i sc qi qo z d = s := by
  unfold store_max
  rw [if_neg h]

lemma store_max_of_fgt (s : ResultsState) (i : ℕ) (sc qi qo : FP) (z d : ℤ)
    (h : fgt sc (s.m_scores 0)) :
    store_max s i sc qi qo z d =
      { m_scores := Function.update s.m_scores 0 sc
        m_relrisk_in := Function.update s.m_relrisk_in 0 qi
        m_relrisk_out := Function.update s.m_relrisk_out 0 qo
        m_zone_numbers := Function.update s.m_zone_numbers 0 z
        m_durations := Function.update s.m_durations 0 d } := by
  unfold store_max
  rw [if_pos h]

lemma run_store_max_nil (s : ResultsState) : run_store_max s [] = s := rfl

lemma run_store_max_cons (s : ResultsState) (c : Cand) (cs : List Cand) :
    run_store_max s (c :: cs) =
      run_store_max (store_max s c.idx c.score c.q_in c.q_out c.zone_nr c.duration) cs := rfl

lemma run_store_max_append (s : ResultsState) (cs ds : List Cand) :
    run_store_max s (cs ++ ds) = run_store_max (run_store_max s cs) ds := by
  unfold run_store_max
  exact List.foldl_append _ _ _ _

/-- If no candidate's score beats the current slot-0 score, `store_max`
never fires. -/
lemma run_store_max_of_no_beat (s : ResultsState) (cs : List Cand)
    (h : ∀ c ∈ cs, ¬ fgt c.score (s.m_scores 0)) : run_store_max s cs = s := by
  induction cs with
  | nil => rfl
  | cons c cs ih =>
    rw [run_store_max_cons, store_max_of_not_fgt s _ _ _ _ _ _ (h c (by simp))]
    exact ih (fun c' hc' => h c' (by simp [hc']))

/-- The slot-0 score after a `store_max` pass is the initial slot-0 score
or one of the candidates' scores. -/
lemma run_store_max_score_mem (s : ResultsState) (cs : List Cand) :
    (run_store_max s cs).m_scores 0 = s.m_scores 0 ∨
      ∃ c ∈ cs, (run_store_max s cs).m_scores 0 = c.score := by
  induction cs generalizing s with
  | nil => exact Or.inl rfl
  | cons c cs ih =>
    rw [run_store_max_cons]
    rcases ih (store_max s c.idx c.score c.q_in c.q_out c.zone_nr c.duration) with h | ⟨c', hc', h⟩
    · by_cases hf : fgt c.score (s.m_scores 0)
      · refine Or.inr ⟨c, by simp, ?_⟩
        rw [h, store_max_of_fgt s _ _ _ _ _ _ hf]
        simp [Function.update_same]
      · rw [store_max_of_not_fgt s _ _ _ _ _ _ hf] at h ⊢
        exact Or.inl h
    · exact Or.inr ⟨c', by simp [hc'], h⟩

/-- Slot isolation: `store_max` never touches a slot other than 0. -/
lemma store_max_apply_ne (s : ResultsState) (i : ℕ) (sc qi qo : FP) (z d : ℤ)
    (j : ℕ) (hj : j ≠ 0) :
    (store_max s i sc qi qo z d).m_scores j = s.m_scores j ∧
    (store_max s i sc qi qo z d).m_relrisk_in j = s.m_relrisk_in j ∧
    (store_max s i sc qi qo z d).m_relrisk_out j = s.m_relrisk_out j ∧
    (store_max s i sc qi qo z d).m_zone_numbers j = s.m_zone_numbers j ∧
    (store_max s i sc qi qo z d).m_durations j = s.m_durations j := by
  unfold store_max
  by_cases hf : fgt sc (s.m_scores 0) <;>
    simp [hf, Function.update_noteq hj]

lemma run_store_max_apply_ne (s : ResultsState) (cs : List Cand) (j : ℕ) (hj : j ≠ 0) :
    (run_store_max s cs).m_scores j = s.m_scores j ∧
    (run_store_max s cs).m_relrisk_in j = s.m_relrisk_in j ∧
    (run_store_max s cs).m_relrisk_out j = s.m_relrisk_out j ∧
    (run_store_max s cs).m_zone_numbers j = s.m_zone_numbers j ∧
    (run_store_max s cs).m_durations j = s.m_durations j := by
  induction cs generalizing s with
  | nil => exact ⟨rfl, rfl, rfl, rfl, rfl⟩
  | cons c cs ih =>
    rw [run_store_max_cons]
    obtain ⟨h1, h2, h3, h4, h5⟩ :=
      ih (store_max s c.idx c.score c.q_in c.q_out c.zone_nr c.duration)
    obtain ⟨g1, g2, g3, g4, g5⟩ :=
      store_max_apply_ne s c.idx c.score c.q_in c.q_out c.zone_nr c.duration j hj
    exact ⟨h1.trans g1, h2.trans g2, h3.trans g3, h4.trans g4, h5.trans g5⟩

lemma usub_self (a : ℕ) : usub a a = 0 := by
  unfold usub
  simp

lemma flog_fin_zero : flog (FP.fin 0) = FP.ninf := by
  simp [flog]

lemma fmul_zero_ninf : fmul (0 : ℝ) FP.ninf = FP.nan := by
  simp [fmul]

lemma fadd_fin_nan (x : ℝ) : fadd (FP.fin x) FP.nan = FP.nan := rfl

/-- C1 (counterexample): at the boundary case `C == totalCount` the claim
fails: with `totalCount = 1`, `C = 1`, `B = 1/2` the candidate has
`C > B`, yet the computed score is NaN — the second term is
`(totalCount - C) * log(relRiskOut) = 0 * log 0 = 0 * (-inf) = NaN` —
so the score is not finite. -/
theorem calc_score_boundary_nan :
    ((1 / 2 : ℝ) < ((1 : ℕ) : ℝ)) ∧
    calc_score 1 1 (1 / 2 : ℝ) = FP.nan ∧
    (calc_score 1 1 (1 / 2 : ℝ)).isFinite = false := by
  have hu : ((usub 1 1 : ℕ) : ℝ) = 0 := by rw [usub_self]; norm_num
  have h1 : calc_risk_in 1 (1 / 2 : ℝ) = FP.fin 2 := by
    unfold calc_risk_in
    rw [fdiv_of_ne _ _ (by norm_num)]
    norm_num
  have h2 : calc_risk_out 1 1 (1 / 2 : ℝ) = FP.fin 0 := by
    unfold calc_risk_out
    rw [if_pos (by norm_num), fdiv_of_ne _ _ (by norm_num), hu]
    norm_num
  have hmain : calc_score 1 1 (1 / 2 : ℝ) = FP.nan := by
    unfold calc_score
    rw [if_pos (by norm_num), h1, h2, flog_fin_of_pos 2 (by norm_num),
      flog_fin_zero, fmul_fin, hu, fmul_zero_ninf, fadd_fin_nan]
  exact ⟨by norm_num, hmain, by rw [hmain]; rfl⟩

/-- C1 (amended): for every candidate with `0 < B < C` and
`C < totalCount` (total below the machine word bound), the computed score
equals `C·ln(C/B) + (totalCount - C)·ln(relRiskOut)` with
`relRiskOut = (totalCount - C)/(totalCount - B)`, and the score is finite
and real-valued.  In the boundary case `C == totalCount` the score is NaN
(see the counterexample), not finite. -/
theorem calc_score_excess_formula (total C : ℕ) (B : ℝ)
    (hB : 0 < B) (hBC : B < (C : ℝ)) (hCt : C < total) (hw : total < 2 ^ 64) :
    calc_score total C B =
      FP.fin ((C : ℝ) * Real.log ((C : ℝ) / B) +
        ((total : ℝ) - (C : ℝ)) *
          Real.log (((total : ℝ) - (C : ℝ)) / ((total : ℝ) - B))) ∧
    (calc_score total C B).isFinite = true := by
  have hCt' : (C : ℝ) < (total : ℝ) := by exact_mod_cast hCt
  have hBt : B < (total : ℝ) := hBC.trans hCt'
  have hcast : ((usub total C : ℕ) : ℝ) = (total : ℝ) - (C : ℝ) := by
    rw [usub_eq_sub total C (le_of_lt hCt) hw]
    push_cast [Nat.cast_sub (le_of_lt hCt)]
    ring
  have hrin : calc_risk_in C B = FP.fin ((C : ℝ) / B) :=
    fdiv_of_ne _ _ (ne_of_gt hB)
  have hrout : calc_risk_out total C B =
      FP.fin (((total : ℝ) - (C : ℝ)) / ((total : ℝ) - B)) := by
    unfold calc_risk_out
    rw [if_pos hBt, fdiv_of_ne _ _ (sub_ne_zero.mpr (ne_of_gt hBt)), hcast]
  have hmain : calc_score total C B =
      FP.fin ((C : ℝ) * Real.log ((C : ℝ) / B) +
        ((total : ℝ) - (C : ℝ)) *
          Real.log (((total : ℝ) - (C : ℝ)) / ((total : ℝ) - B))) := by
    unfold calc_score
    rw [if_pos hBC, hrin, hrout,
      flog_fin_of_pos _ (div_pos (lt_trans hB hBC) hB),
      flog_fin_of_pos _ (div_pos (by linarith) (by linarith)),
      fmul_fin, hcast, fmul_fin, fadd_fin]
  exact ⟨hmain, by rw [hmain]; rfl⟩

/-- C1 (witness): the amended theorem at `totalCount = 2`, `C = 1`,
`B = 1/2`. -/
theorem calc_score_excess_formula_witness :
    (0 < (1 / 2 : ℝ) ∧ (1 / 2 : ℝ) < ((1 : ℕ) : ℝ) ∧ (1 : ℕ) < 2 ∧ (2 : ℕ) < 2 ^ 64) ∧
    (calc_score 2 1 (1 / 2 : ℝ) =
      FP.fin (((1 : ℕ) : ℝ) * Real.log (((1 : ℕ) : ℝ) / (1 / 2 : ℝ)) +
        (((2 : ℕ) : ℝ) - ((1 : ℕ) : ℝ)) *
          Real.log ((((2 : ℕ) : ℝ) - ((1 : ℕ) : ℝ)) / (((2 : ℕ) : ℝ) - (1 / 2 : ℝ)))) ∧
    (calc_score 2 1 (1 / 2 : ℝ)).isFinite = true) :=
  ⟨⟨by norm_num, by norm_num, by norm_num, by norm_num⟩,
    calc_score_excess_formula 2 1 (1 / 2 : ℝ) (by norm_num) (by norm_num)
      (by norm_num) (by norm_num)⟩

/-- C2: every candidate with `C <= B` is scored exactly negative infinity,
and such a candidate is never retained by `store_max` or `store_sim`: its
store call leaves the state entirely unchanged (IEEE `-inf > x` is false
for every `x`), so in particular it never displaces a `C > B` candidate
processed in the same pass. -/
theorem no_excess_score_ninf (total C : ℕ) (B : ℝ) (h : (C : ℝ) ≤ B) :
    calc_score total C B = FP.ninf ∧
    (∀ (s : ResultsState) (i : ℕ) (qi qo : FP) (z d : ℤ),
      store_max s i (calc_score total C B) qi qo z d = s) ∧
    (∀ (r : ℕ) (s : SimState) (i : ℕ) (qi qo : FP) (z d : ℤ),
      store_sim r s i (calc_score total C B) qi qo z d = s) := by
  have hs : calc_score total C B = FP.ninf := by
    unfold calc_score
    rw [if_neg (not_lt.mpr h)]
  refine ⟨hs, ?_, ?_⟩
  · intro s i qi qo z d
    rw [hs]
    exact store_max_of_not_fgt s i _ qi qo z d (fgt_ninf_left _)
  · intro r s i qi qo z d
    rw [hs]
    unfold store_sim
    rw [if_neg (fgt_ninf_left _)]

/-- C2 (witness): `totalCount = 5`, `C = 1`, `B = 2`. -/
theorem no_excess_score_ninf_witness :
    (((1 : ℕ) : ℝ) ≤ 2) ∧
    (calc_score 5 1 (2 : ℝ) = FP.ninf ∧
    (∀ (s : ResultsState) (i : ℕ) (qi qo : FP) (z d : ℤ),
      store_max s i (calc_score 5 1 (2 : ℝ)) qi qo z d = s) ∧
    (∀ (r : ℕ) (s : SimState) (i : ℕ) (qi qo : FP) (z d : ℤ),
      store_sim r s i (calc_score 5 1 (2 : ℝ)) qi qo z d = s)) :=
  ⟨by norm_num, no_excess_score_ninf 5 1 2 (by norm_num)⟩

/-- C3: for every valid candidate (`C ≤ totalCount`, counts within the
machine word), the out-of-zone relative risk is
`(totalCount - C)/(totalCount - B)` when `totalCount > B` and exactly
`1.0` otherwise (in particular when `totalCount == B`), so the division is
only performed with a non-zero denominator. -/
theorem calc_risk_out_cases (total C : ℕ) (B : ℝ)
    (hC : C ≤ total) (hw : total < 2 ^ 64) :
    (B < (total : ℝ) →
      calc_risk_out total C B =
        FP.fin (((total : ℝ) - (C : ℝ)) / ((total : ℝ) - B))) ∧
    (¬ B < (total : ℝ) → calc_risk_out total C B = FP.fin 1) := by
  constructor
  · intro hB
    have hcast : ((usub total C : ℕ) : ℝ) = (total : ℝ) - (C : ℝ) := by
      rw [usub_eq_sub total C hC hw]
      push_cast [Nat.cast_sub hC]
      ring
    unfold calc_risk_out
    rw [if_pos hB, fdiv_of_ne _ _ (sub_ne_zero.mpr (ne_of_gt hB)), hcast]
  · intro hB
    unfold calc_risk_out
    rw [if_neg hB]

/-- C3 (witness): `totalCount = 2`, `C = 1`, `B = 1`. -/
theorem calc_risk_out_cases_witness :
    ((1 : ℕ) ≤ 2 ∧ (2 : ℕ) < 2 ^ 64) ∧
    (((1 : ℝ) < ((2 : ℕ) : ℝ) →
      calc_risk_out 2 1 (1 : ℝ) =
        FP.fin ((((2 : ℕ) : ℝ) - ((1 : ℕ) : ℝ)) / (((2 : ℕ) : ℝ) - 1))) ∧
    (¬ (1 : ℝ) < ((2 : ℕ) : ℝ) → calc_risk_out 2 1 (1 : ℝ) = FP.fin 1)) :=
  ⟨⟨by norm_num, by norm_num⟩, calc_risk_out_cases 2 1 1 (by norm_num) (by norm_num)⟩

/-- C7: when the aggregated in-zone baseline is strictly positive the
in-zone relative risk is the ordinary real quotient `C / B`; the
calculator has no guard for `B == 0`, where it instead yields the IEEE
results NaN (`C == 0`) or +inf (`C > 0`), so `B > 0` is a precondition the
caller must establish. -/
theorem calc_risk_in_pos_baseline (C : ℕ) (B : ℝ) (h : 0 < B) :
    calc_risk_in C B = FP.fin ((C : ℝ) / B) ∧
    calc_risk_in C 0 = (if C = 0 then FP.nan else FP.pinf) := by
  refine ⟨fdiv_of_ne _ _ (ne_of_gt h), ?_⟩
  unfold calc_risk_in fdiv
  by_cases hC : C = 0
  · simp [hC]
  · have h1 : ((C : ℕ) : ℝ) ≠ 0 := Nat.cast_ne_zero.mpr hC
    have h2 : (0 : ℝ) < ((C : ℕ) : ℝ) := by
      exact_mod_cast Nat.pos_of_ne_zero hC
    simp [hC, h1, h2]

/-- C7 (witness): `C = 3`, `B = 2`. -/
theorem calc_risk_in_pos_baseline_witness :
    (0 < (2 : ℝ)) ∧
    (calc_risk_in 3 (2 : ℝ) = FP.fin (((3 : ℕ) : ℝ) / 2) ∧
    calc_risk_in 3 0 = (if (3 : ℕ) = 0 then FP.nan else FP.pinf)) :=
  ⟨by norm_num, calc_risk_in_pos_baseline 3 2 (by norm_num)⟩

/-- C10: `store_max` and `store_sim` ignore their `storage_index`
argument: for any two indices and otherwise identical state and candidate
the resulting states coincide. -/
theorem store_ignores_storage_index (s : ResultsState) (r : ℕ) (s2 : SimState)
    (i i2 : ℕ) (sc qi qo : FP) (z d : ℤ) :
    store_max s i sc qi qo z d = store_max s i2 sc qi qo z d ∧
    store_sim r s2 i sc qi qo z d = store_sim r s2 i2 sc qi qo z d :=
  ⟨rfl, rfl⟩

/-- C4: `store_max` overwrites all five slot-0 fields exactly when the new
score is strictly greater (first conjunct); consequently, after processing
any sequence of candidates in which `c` strictly beats the initial slot-0
score and every earlier candidate's score, and no later candidate strictly
beats `c` (so an exact tie keeps the earliest-seen candidate), slot 0
holds `c`'s five fields, and no other slot is ever touched. -/
theorem retain_max_invariant (s0 : ResultsState) (pre post : List Cand) (c : Cand)
    (h0 : fgt c.score (s0.m_scores 0))
    (h1 : ∀ c' ∈ pre, fgt c.score (Cand.score c'))
    (h2 : ∀ c' ∈ post, ¬ fgt (Cand.score c') c.score) :
    (∀ (s : ResultsState) (i : ℕ) (sc qi qo : FP) (z d : ℤ),
      (¬ fgt sc (s.m_scores 0) → store_max s i sc qi qo z d = s) ∧
      (fgt sc (s.m_scores 0) →
        (store_max s i sc qi qo z d).m_scores 0 = sc ∧
        (store_max s i sc qi qo z d).m_relrisk_in 0 = qi ∧
        (store_max s i sc qi qo z d).m_relrisk_out 0 = qo ∧
        (store_max s i sc qi qo z d).m_zone_numbers 0 = z ∧
        (store_max s i sc qi qo z d).m_durations 0 = d)) ∧
    ((run_store_max s0 (pre ++ c :: post)).m_scores 0 = c.score ∧
     (run_store_max s0 (pre ++ c :: post)).m_relrisk_in 0 = c.q_in ∧
     (run_store_max s0 (pre ++ c :: post)).m_relrisk_out 0 = c.q_out ∧
     (run_store_max s0 (pre ++ c :: post)).m_zone_numbers 0 = c.zone_nr ∧
     (run_store_max s0 (pre ++ c :: post)).m_durations 0 = c.duration) ∧
    (∀ j : ℕ, j ≠ 0 →
      (run_store_max s0 (pre ++ c :: post)).m_scores j = s0.m_scores j ∧
      (run_store_max s0 (pre ++ c :: post)).m_relrisk_in j = s0.m_relrisk_in j ∧
      (run_store_max s0 (pre ++ c :: post)).m_relrisk_out j = s0.m_relrisk_out j ∧
      (run_store_max s0 (pre ++ c :: post)).m_zone_numbers j = s0.m_zone_numbers j ∧
      (run_store_max s0 (pre ++ c :: post)).m_durations j = s0.m_durations j) := by
  refine ⟨?_, ?_, ?_⟩
  · intro s i sc qi qo z d
    refine ⟨store_max_of_not_fgt s i sc qi qo z d, fun hf => ?_⟩
    rw [store_max_of_fgt s i sc qi qo z d hf]
    simp [Function.update_same]
  · have hbeat : fgt c.score ((run_store_max s0 pre).m_scores 0) := by
      rcases run_store_max_score_mem s0 pre with h | ⟨c', hc', h⟩
      · rw [h]; exact h0
      · rw [h]; exact h1 c' hc'
    have hstep :
        (store_max (run_store_max s0 pre) c.idx c.score c.q_in c.q_out
            c.zone_nr c.duration).m_scores 0 = c.score := by
      rw [store_max_of_fgt _ _ _ _ _ _ _ hbeat]
      simp [Function.update_same]
    have hrest :
        run_store_max (store_max (run_store_max s0 pre) c.idx c.score c.q_in
            c.q_out c.zone_nr c.duration) post =
          store_max (run_store_max s0 pre) c.idx c.score c.q_in c.q_out
            c.zone_nr c.duration := by
      apply run_store_max_of_no_beat
      intro c' hc'
      rw [hstep]
      exact h2 c' hc'
    rw [run_store_max_append, run_store_max_cons, hrest,
      store_max_of_fgt _ _ _ _ _ _ _ hbeat]
    simp [Function.update_same]
  · intro j hj
    obtain ⟨g1, g2, g3, g4, g5⟩ :=
      run_store_max_apply_ne s0 (pre ++ c :: post) j hj
    exact ⟨g1, g2, g3, g4, g5⟩

/-- C4 (witness): processing scores `1, 2, 2` (an exact tie at the top)
from a slot holding `-inf` retains the earliest top candidate `w_best`. -/
theorem retain_max_invariant_witness :
    fgt w_best.score (w_init.m_scores 0) ∧
    (run_store_max w_init [w_low, w_best, w_tie]).m_scores 0 = FP.fin 2 ∧
    (run_store_max w_init [w_low, w_best, w_tie]).m_zone_numbers 0 = 7 ∧
    (run_store_max w_init [w_low, w_best, w_tie]).m_durations 0 = 8 := by
  have h0 : fgt w_best.score (w_init.m_scores 0) := by
    simp [w_best, w_init, fgt]
  have h1 : ∀ c' ∈ [w_low], fgt w_best.score (Cand.score c') := by
    intro c' hc'
    have : c' = w_low := by simpa using hc'
    rw [this]
    show fgt (FP.fin 2) (FP.fin 1)
    show (1 : ℝ) < 2
    norm_num
  have h2 : ∀ c' ∈ [w_tie], ¬ fgt (Cand.score c') w_best.score := by
    intro c' hc'
    have : c' = w_tie := by simpa using hc'
    rw [this]
    show ¬ fgt (FP.fin 2) (FP.fin 2)
    show ¬ (2 : ℝ) < 2
    norm_num
  have h := retain_max_invariant w_init [w_low] [w_tie] w_best h0 h1 h2
  exact ⟨h0, h.2.1.1, h.2.1.2.2.2.1, h.2.1.2.2.2.2⟩

lemma store_sim_of_not_fgt (r : ℕ) (s : SimState) (i : ℕ) (sc qi qo : FP) (z d : ℤ)
    (h : ¬ fgt sc (s.sim_scores r)) : store_sim r s i sc qi qo z d = s := by
  unfold store_sim
  rw [if_neg h]

lemma store_sim_of_fgt (r : ℕ) (s : SimState) (i : ℕ) (sc qi qo : FP) (z d : ℤ)
    (h : fgt sc (s.sim_scores r)) :
    store_sim r s i sc qi qo z d =
      { sim_scores := Function.update s.sim_scores r sc
        sim_relrisk_in := Function.update s.sim_relrisk_in r qi
        sim_relrisk_out := Function.update s.sim_relrisk_out r qo
        sim_zone_numbers := Function.update s.sim_zone_numbers r z
        sim_durations := Function.update s.sim_durations r d } := by
  unfold store_sim
  rw [if_pos h]

lemma run_store_sim_cons (r : ℕ) (s : SimState) (c : Cand) (cs : List Cand) :
    run_store_sim r s (c :: cs) =
      run_store_sim r (store_sim r s c.idx c.score c.q_in c.q_out c.zone_nr c.duration) cs := rfl

/-- Round isolation: `store_sim` for round `r2` never touches the slot of
a round `j ≠ r2`. -/
lemma store_sim_apply_ne (r2 : ℕ) (s : SimState) (i : ℕ) (sc qi qo : FP) (z d : ℤ)
    (j : ℕ) (hj : j ≠ r2) :
    (store_sim r2 s i sc qi qo z d).sim_scores j = s.sim_scores j ∧
    (store_sim r2 s i sc qi qo z d).sim_relrisk_in j = s.sim_relrisk_in j ∧
    (store_sim r2 s i sc qi qo z d).sim_relrisk_out j = s.sim_relrisk_out j ∧
    (store_sim r2 s i sc qi qo z d).sim_zone_numbers j = s.sim_zone_numbers j ∧
    (store_sim r2 s i sc qi qo z d).sim_durations j = s.sim_durations j := by
  unfold store_sim
  by_cases hf : fgt sc (s.sim_scores r2) <;>
    simp [hf, Function.update_noteq hj]

lemma run_store_sim_apply_ne (r2 : ℕ) (s : SimState) (cs : List Cand)
    (j : ℕ) (hj : j ≠ r2) :
    (run_store_sim r2 s cs).sim_scores j = s.sim_scores j ∧
    (run_store_sim r2 s cs).sim_relrisk_in j = s.sim_relrisk_in j ∧
    (run_store_sim r2 s cs).sim_relrisk_out j = s.sim_relrisk_out j ∧
    (run_store_sim r2 s cs).sim_zone_numbers j = s.sim_zone_numbers j ∧
    (run_store_sim r2 s cs).sim_durations j = s.sim_durations j := by
  induction cs generalizing s with
  | nil => exact ⟨rfl, rfl, rfl, rfl, rfl⟩
  | cons c cs ih =>
    rw [run_store_sim_cons]
    obtain ⟨h1, h2, h3, h4, h5⟩ :=
      ih (store_sim r2 s c.idx c.score c.q_in c.q_out c.zone_nr c.duration)
    obtain ⟨g1, g2, g3, g4, g5⟩ :=
      store_sim_apply_ne r2 s c.idx c.score c.q_in c.q_out c.zone_nr c.duration j hj
    exact ⟨h1.trans g1, h2.trans g2, h3.trans g3, h4.trans g4, h5.trans g5⟩

/-- C5: `store_sim` applies the `store_max` comparison to the slot of the
current simulation round (second conjunct: strict-greater overwrite of all
five fields of slot `r`, no-op otherwise), and for distinct rounds
`r ≠ r2`, processing any sequence of candidates in round `r2` leaves every
field of round `r`'s retained maximum unchanged. -/
theorem retain_sim_max_independent (r r2 : ℕ) (h : r ≠ r2)
    (s : SimState) (cs : List Cand) :
    ((run_store_sim r2 s cs).sim_scores r = s.sim_scores r ∧
     (run_store_sim r2 s cs).sim_relrisk_in r = s.sim_relrisk_in r ∧
     (run_store_sim r2 s cs).sim_relrisk_out r = s.sim_relrisk_out r ∧
     (run_store_sim r2 s cs).sim_zone_numbers r = s.sim_zone_numbers r ∧
     (run_store_sim r2 s cs).sim_durations r = s.sim_durations r) ∧
    (∀ (t : SimState) (i : ℕ) (sc qi qo : FP) (z d : ℤ),
      (¬ fgt sc (t.sim_scores r) → store_sim r t i sc qi qo z d = t) ∧
      (fgt sc (t.sim_scores r) →
        (store_sim r t i sc qi qo z d).sim_scores r = sc ∧
        (store_sim r t i sc qi qo z d).sim_relrisk_in r = qi ∧
        (store_sim r t i sc qi qo z d).sim_relrisk_out r = qo ∧
        (store_sim r t i sc qi qo z d).sim_zone_numbers r = z ∧
        (store_sim r t i sc qi qo z d).sim_durations r = d)) := by
  refine ⟨run_store_sim_apply_ne r2 s cs r h, ?_⟩
  intro t i sc qi qo z d
  refine ⟨store_sim_of_not_fgt r t i sc qi qo z d, fun hf => ?_⟩
  rw [store_sim_of_fgt r t i sc qi qo z d hf]
  simp [Function.update_same]

/-- C5 (witness): running round 1 over a candidate does not change round
0's slot. -/
theorem retain_sim_max_independent_witness :
    (0 : ℕ) ≠ 1 ∧
    (run_store_sim 1 w_sim_init [w_best]).sim_scores 0 = w_sim_init.sim_scores 0 := by
  have h := retain_sim_max_independent 0 1 (by norm_num) w_sim_init [w_best]
  exact ⟨by norm_num, h.1.1⟩

lemma run_store_all_cons (s : ResultsState) (c : Cand) (cs : List Cand) :
    run_store_all s (c :: cs) =
      run_store_all (store_all s c.idx c.score c.q_in c.q_out c.zone_nr c.duration) cs := rfl

/-- Slot isolation: `store_all` at index `i` leaves every slot `j ≠ i`
unchanged. -/
lemma store_all_apply_ne (s : ResultsState) (i : ℕ) (sc qi qo : FP) (z d : ℤ)
    (j : ℕ) (hj : j ≠ i) :
    (store_all s i sc qi qo z d).m_scores j = s.m_scores j ∧
    (store_all s i sc qi qo z d).m_relrisk_in j = s.m_relrisk_in j ∧
    (store_all s i sc qi qo z d).m_relrisk_out j = s.m_relrisk_out j ∧
    (store_all s i sc qi qo z d).m_zone_numbers j = s.m_zone_numbers j ∧
    (store_all s i sc qi qo z d).m_durations j = s.m_durations j := by
  unfold store_all
  simp [Function.update_noteq hj]

lemma run_store_all_unchanged (s : ResultsState) (cs : List Cand)
    (j : ℕ) (hj : j ∉ cs.map Cand.idx) :
    (run_store_all s cs).m_scores j = s.m_scores j ∧
    (run_store_all s cs).m_relrisk_in j = s.m_relrisk_in j ∧
    (run_store_all s cs).m_relrisk_out j = s.m_relrisk_out j ∧
    (run_store_all s cs).m_zone_numbers j = s.m_zone_numbers j ∧
    (run_store_all s cs).m_durations j = s.m_durations j := by
  induction cs generalizing s with
  | nil => exact ⟨rfl, rfl, rfl, rfl, rfl⟩
  | cons c cs ih =>
    rw [run_store_all_cons]
    have hj1 : j ≠ c.idx := by
      intro hji
      exact hj (by simp [hji])
    have hj2 : j ∉ cs.map Cand.idx := by
      intro hji
      exact hj (by simp [hji])
    obtain ⟨h1, h2, h3, h4, h5⟩ :=
      ih (store_all s c.idx c.score c.q_in c.q_out c.zone_nr c.duration) hj2
    obtain ⟨g1, g2, g3, g4, g5⟩ :=
      store_all_apply_ne s c.idx c.score c.q_in c.q_out c.zone_nr c.duration j hj1
    exact ⟨h1.trans g1, h2.trans g2, h3.trans g3, h4.trans g4, h5.trans g5⟩

/-- C6: `store_all` writes each candidate's five fields into exactly its
own storage slot (third conjunct: a write at index `i` leaves every slot
`j ≠ i` unchanged); after processing a sequence of candidates with
pairwise distinct indices, each candidate's slot holds exactly its
computed result and every slot not written keeps its initial contents. -/
theorem retain_all_invariant (s0 : ResultsState) (cs : List Cand)
    (h : (cs.map Cand.idx).Nodup) :
    (∀ c ∈ cs,
      (run_store_all s0 cs).m_scores c.idx = c.score ∧
      (run_store_all s0 cs).m_relrisk_in c.idx = c.q_in ∧
      (run_store_all s0 cs).m_relrisk_out c.idx = c.q_out ∧
      (run_store_all s0 cs).m_zone_numbers c.idx = c.zone_nr ∧
      (run_store_all s0 cs).m_durations c.idx = c.duration) ∧
    (∀ j : ℕ, j ∉ cs.map Cand.idx →
      (run_store_all s0 cs).m_scores j = s0.m_scores j ∧
      (run_store_all s0 cs).m_relrisk_in j = s0.m_relrisk_in j ∧
      (run_store_all s0 cs).m_relrisk_out j = s0.m_relrisk_out j ∧
      (run_store_all s0 cs).m_zone_numbers j = s0.m_zone_numbers j ∧
      (run_store_all s0 cs).m_durations j = s0.m_durations j) ∧
    (∀ (s : ResultsState) (i : ℕ) (sc qi qo : FP) (z d : ℤ) (j : ℕ), j ≠ i →
      (store_all s i sc qi qo z d).m_scores j = s.m_scores j ∧
      (store_all s i sc qi qo z d).m_relrisk_in j = s.m_relrisk_in j ∧
      (store_all s i sc qi qo z d).m_relrisk_out j = s.m_relrisk_out j ∧
      (store_all s i sc qi qo z d).m_zone_numbers j = s.m_zone_numbers j ∧
      (store_all s i sc qi qo z d).m_durations j = s.m_durations j) := by
  refine ⟨?_, fun j hj => run_store_all_unchanged s0 cs j hj,
    fun s i sc qi qo z d j hj => store_all_apply_ne s i sc qi qo z d j hj⟩
  induction cs generalizing s0 with
  | nil => intro c hc; exact absurd hc (List.not_mem_nil c)
  | cons c0 cs ih =>
    rw [List.map_cons, List.nodup_cons] at h
    intro c hc
    rcases List.mem_cons.mp hc with hc0 | hcs
    · subst hc0
      rw [run_store_all_cons]
      obtain ⟨h1, h2, h3, h4, h5⟩ :=
        run_store_all_unchanged
          (store_all s0 c.idx c.score c.q_in c.q_out c.zone_nr c.duration) cs c.idx h.1
      refine ⟨h1.trans ?_, h2.trans ?_, h3.trans ?_, h4.trans ?_, h5.trans ?_⟩ <;>
        simp [store_all, Function.update_same]
    · rw [run_store_all_cons]
      exact ih _ h.2 c hcs

/-- C6 (witness): two candidates at distinct indices 0 and 1. -/
theorem retain_all_invariant_witness :
    (([w_low, w_best].map Cand.idx).Nodup) ∧
    (run_store_all w_init [w_low, w_best]).m_scores w_low.idx = w_low.score ∧
    (run_store_all w_init [w_low, w_best]).m_scores w_best.idx = w_best.score ∧
    (run_store_all w_init [w_low, w_best]).m_zone_numbers 5 = w_init.m_zone_numbers 5 := by
  have hnd : (([w_low, w_best].map Cand.idx)).Nodup := by
    simp [w_low, w_best]
  have h := retain_all_invariant w_init [w_low, w_best] hnd
  refine ⟨hnd, (h.1 w_low (by simp)).1, (h.1 w_best (by simp)).1, ?_⟩
  refine (h.2.1 5 ?_).2.2.2.1
  simp [w_low, w_best]

/-- C8: for the aggregate tables built by the constructor (line 66:
`m_total_count = arma::accu(counts)`; line 67: `m_counts =
arma::cumsum(counts)`, cumulative along the time rows), the stored total
count equals the sum over all locations of the final-time entry of the
cumulative count matrix — equivalently, the sum of all raw counts.  The
model is pure, so the equality holds for the lifetime of the tables. -/
theorem total_count_invariant (T L : ℕ) (hT : 0 < T) (counts : Fin T → Fin L → ℕ) :
    ∑ l, cumsum_time counts ⟨T - 1, by omega⟩ l = accu counts := by
  unfold cumsum_time accu
  have hIic : Finset.Iic (⟨T - 1, by omega⟩ : Fin T) = Finset.univ := by
    ext u
    simp only [Finset.mem_Iic, Finset.mem_univ, iff_true, Fin.le_def]
    have := u.isLt
    omega
  rw [hIic]
  exact Finset.sum_comm

/-- C8 (witness): a single location over two time steps with raw counts
`3, 5`. -/
theorem total_count_invariant_witness :
    (0 < 2) ∧
    (∑ l, cumsum_time (fun (t : Fin 2) (_ : Fin 1) => 3 + 2 * (t : ℕ)) ⟨2 - 1, by omega⟩ l =
      accu (fun (t : Fin 2) (_ : Fin 1) => 3 + 2 * (t : ℕ))) :=
  ⟨by norm_num,
    total_count_invariant 2 1 (by norm_num) (fun t _ => 3 + 2 * (t : ℕ))⟩

/-- C9: the zone number and duration that `calculate` hands to the storage
strategy are its `zone_nr` and `duration` arguments incremented by one
(lines 107–108), while the score and both relative risks are passed
exactly as computed; after the store, `get_scan` exports those stored
values verbatim in its five columns. -/
theorem calculate_one_based_export {T L : ℕ} (m_counts : Fin T → Fin L → ℕ)
    (m_baselines : Fin T → Fin L → ℝ) (m_total_count : ℕ)
    (s : ResultsState) (storage_index : ℕ) (zone_nr duration : ℤ)
    (current_zone : Finset (Fin L)) (current_rows : List (Fin T))
    (hrows : current_rows ≠ []) :
    (calculate m_counts m_baselines m_total_count storage_index zone_nr duration
        current_zone current_rows hrows).zone_nr = zone_nr + 1 ∧
    (calculate m_counts m_baselines m_total_count storage_index zone_nr duration
        current_zone current_rows hrows).duration = duration + 1 ∧
    (calculate m_counts m_baselines m_total_count storage_index zone_nr duration
        current_zone current_rows hrows).score =
      calc_score m_total_count
        (∑ l ∈ current_zone, m_counts (current_rows.getLast hrows) l)
        (∑ l ∈ current_zone, m_baselines (current_rows.getLast hrows) l) ∧
    (∀ (a : Cand),
      (get_scan (store_all s a.idx a.score a.q_in a.q_out a.zone_nr a.duration)).zone a.idx = a.zone_nr ∧
      (get_scan (store_all s a.idx a.score a.q_in a.q_out a.zone_nr a.duration)).duration a.idx = a.duration ∧
      (get_scan (store_all s a.idx a.score a.q_in a.q_out a.zone_nr a.duration)).score a.idx = a.score ∧
      (get_scan (store_all s a.idx a.score a.q_in a.q_out a.zone_nr a.duration)).relrisk_in a.idx = a.q_in ∧
      (get_scan (store_all s a.idx a.score a.q_in a.q_out a.zone_nr a.duration)).relrisk_out a.idx = a.q_out) := by
  refine ⟨rfl, rfl, rfl, ?_⟩
  intro a
  simp [get_scan, store_all, Function.update_same]

/-- C9 (witness): a 1×1 table with count 3 and baseline 1. -/
theorem calculate_one_based_export_witness :
    (([(0 : Fin 1)] : List (Fin 1)) ≠ []) ∧
    ((calculate (fun (_ : Fin 1) (_ : Fin 1) => 3) (fun _ _ => (1 : ℝ)) 3 0 5 6
        Finset.univ [(0 : Fin 1)] (by simp)).zone_nr = 5 + 1 ∧
     (calculate (fun (_ : Fin 1) (_ : Fin 1) => 3) (fun _ _ => (1 : ℝ)) 3 0 5 6
        Finset.univ [(0 : Fin 1)] (by simp)).duration = 6 + 1) := by
  have h := calculate_one_based_export (fun (_ : Fin 1) (_ : Fin 1) => 3)
    (fun _ _ => (1 : ℝ)) 3 w_init 0 5 6 Finset.univ [(0 : Fin 1)] (by simp)
  exact ⟨by simp, h.1, h.2.1⟩

end PBPOI
